import Mathlib

/-!
Shallow embedding of the Stock-Scorer scoring pipeline
(`src/scoring/*.py`, `src/utils/config.py`) and proofs about it.

Python floats are modelled as exact rationals (ℚ); Python `None` as
`Option`; Python dicts as insertion-ordered association lists with
first-match lookup; Python `round(x, d)` as round-half-to-even at
`d` decimal digits.
-/

namespace StockScorer

/-- First-match lookup in an association list, mirroring Python `dict.get`
on an insertion-ordered dict without duplicate keys. -/
def alookup {β : Type} (k : String) : List (String × β) → Option β
  | [] => none
  | (a, b) :: t => if a = k then some b else alookup k t

/-- Python `dict.get` on a dict whose values may themselves be `None`:
an absent key and a key mapped to `None` both yield `none`. -/
def rawGet (raw : List (String × Option ℚ)) (k : String) : Option ℚ :=
  (alookup k raw).getD none

/-- Round-half-to-even to an integer, as Python's built-in `round`. -/
def rhe (q : ℚ) : ℤ :=
  if q - ⌊q⌋ < 1/2 then ⌊q⌋
  else if 1/2 < q - ⌊q⌋ then ⌊q⌋ + 1
  else if ⌊q⌋ % 2 = 0 then ⌊q⌋ else ⌊q⌋ + 1

/-- Python `round(q, d)`: round-half-to-even at `d` decimal digits. -/
def roundTo (d : ℕ) (q : ℚ) : ℚ := (rhe (q * 10 ^ d) : ℚ) / 10 ^ d

theorem rhe_ge_floor (q : ℚ) : ⌊q⌋ ≤ rhe q := by
  unfold rhe
  split_ifs <;> omega

theorem rhe_le_ceil (q : ℚ) : rhe q ≤ ⌈q⌉ := by
  have hfc : ⌊q⌋ ≤ ⌈q⌉ := Int.floor_le_ceil q
  unfold rhe
  split_ifs with h1 h2 h3
  · exact hfc
  all_goals first
  | exact hfc
  | { have hflt : (⌊q⌋ : ℚ) < q := by
        have hge : (1 : ℚ)/2 ≤ q - ⌊q⌋ := le_of_not_lt h1
        linarith
      have hcq : (⌊q⌋ : ℚ) < (⌈q⌉ : ℚ) := lt_of_lt_of_le hflt (Int.le_ceil q)
      have hlt : ⌊q⌋ < ⌈q⌉ := by exact_mod_cast hcq
      omega }

theorem roundTo_nonneg (d : ℕ) (q : ℚ) (h : 0 ≤ q) : 0 ≤ roundTo d q := by
  unfold roundTo
  apply div_nonneg
  · have h1 : (0 : ℤ) ≤ ⌊q * 10 ^ d⌋ := by
      apply Int.floor_nonneg.mpr
      positivity
    have h2 := rhe_ge_floor (q * 10 ^ d)
    exact_mod_cast le_trans h1 h2
  · positivity

theorem roundTo_le (d : ℕ) (q B : ℚ) (hB : ∃ b : ℤ, (b : ℚ) = B) (h : q ≤ B) :
    roundTo d q ≤ B := by
  obtain ⟨b, rfl⟩ := hB
  unfold roundTo
  rw [div_le_iff (by positivity)]
  have h1 : ⌈q * 10 ^ d⌉ ≤ b * 10 ^ d := by
    apply Int.ceil_le.mpr
    push_cast
    calc q * 10 ^ d ≤ (b : ℚ) * 10 ^ d := by
          apply mul_le_mul_of_nonneg_right h (by positivity)
      _ = (b : ℚ) * 10 ^ d := rfl
  have h2 := rhe_le_ceil (q * 10 ^ d)
  calc (rhe (q * 10 ^ d) : ℚ) ≤ (⌈q * 10 ^ d⌉ : ℚ) := by exact_mod_cast h2
    _ ≤ ((b * 10 ^ d : ℤ) : ℚ) := by exact_mod_cast h1
    _ = (b : ℚ) * 10 ^ d := by push_cast; ring

/-! ## Configuration (`src/utils/config.py`) -/

/-- One metric's configuration entry. `display_name` is `none` for
`operating_margin`, whose config spells the key `dsiplay_name`, so the
Python `metric_info.get('display_name', metric_name)` falls back to the
metric name there. `description` is not used by any scoring code. -/
structure MetricCfg where
  weight : ℚ
  lower_is_better : Bool
  display_name : Option String
deriving Repr, DecidableEq

/-- `METRICS` from `config.py`. `current_ratio`'s weight is the string
`'0.30'` in the source; every consumer coerces it with `float(...)`
(`CategoryAggregator`) or passes it through unchanged, so it is modelled
as the rational 3/10. The profitability key `net margin` (with a space)
is kept verbatim. -/
def METRICS : List (String × List (String × MetricCfg)) :=
  [ ("valuation",
      [ ("pe_ratio", ⟨40/100, true, some "P/E Ratio"⟩)
      , ("peg_ratio", ⟨35/100, true, some "PEG Ratio"⟩)
      , ("price_to_fcf", ⟨25/100, true, some "Price/FCF"⟩) ])
  , ("growth",
      [ ("revenue_growth", ⟨50/100, false, some "revenue growth"⟩)
      , ("eps_growth", ⟨50/100, false, some "EPS growth"⟩) ])
  , ("profitability",
      [ ("roe", ⟨40/100, false, some "ROE"⟩)
      , ("operating_margin", ⟨30/100, false, none⟩)
      , ("net margin", ⟨30/100, false, some "Net Margin"⟩) ])
  , ("risk",
      [ ("debt_to_equity", ⟨40/100, true, some "Debt/Equity"⟩)
      , ("current_ratio", ⟨30/100, false, some "Current Ratio"⟩)
      , ("beta", ⟨30/100, true, some "beta"⟩) ]) ]

/-- `CATEGORY_WEIGHTS` from `config.py`. -/
def CATEGORY_WEIGHTS : List (String × ℚ) :=
  [ ("valuation", 30/100), ("growth", 25/100)
  , ("profitability", 25/100), ("risk", 20/100) ]

/-- The adjustment thresholds consulted by `ContextualAdjuster`. -/
structure Thresholds where
  high_debt : ℚ
  weak_liquidity : ℚ
deriving Repr, DecidableEq

/-- `THRESHOLDS` from `config.py` (the two keys the adjuster reads). -/
def THRESHOLDS : Thresholds := ⟨2, 12/10⟩

/-! ## Contextual adjustments (`src/scoring/adjustments.py`)

Each adjuster returns `(adjusted_score, explanation)`; the explanation is
modelled as a `Bool` flag (`true` iff the Python code returns a non-`None`
explanation string). -/

/-- `ContextualAdjuster.adjust_valuation_for_growth`. -/
def adjust_valuation_for_growth (valuation_score growth_score : ℚ) : ℚ × Bool :=
  if valuation_score < 50 ∧ 70 < growth_score then
    (min (valuation_score + min ((growth_score - 70) * (1/2)) 20) 100, true)
  else
    (valuation_score, false)

/-- `ContextualAdjuster.adjust_risk_for_liquidity`. -/
def adjust_risk_for_liquidity (risk_score : ℚ)
    (raw_metrics : List (String × Option ℚ)) (th : Thresholds) : ℚ × Bool :=
  match rawGet raw_metrics "debt_to_equity", rawGet raw_metrics "current_ratio" with
  | some d, some c =>
    if th.high_debt < d ∧ c < th.weak_liquidity then
      (max (risk_score - min ((d - th.high_debt) * (th.weak_liquidity - c) * 10) 25) 0,
        true)
    else
      (risk_score, false)
  | _, _ => (risk_score, false)

/-- `ContextualAdjuster.adjust_profitability_for_growth_stage`. -/
def adjust_profitability_for_growth_stage (profitability_score growth_score : ℚ)
    (raw_metrics : List (String × Option ℚ)) : ℚ × Bool :=
  match rawGet raw_metrics "revenue_growth" with
  | none => (profitability_score, false)
  | some rev =>
    if profitability_score < 40 ∧ 30/100 < rev then
      (min (profitability_score + min (rev * 30) 15) 100, true)
    else
      (profitability_score, false)

/-! ## Percentile calculation (`src/scoring/percentile.py`)

Peer values are `Option ℚ`: `none` models Python `None` (and NaN, which
the cleaning step also drops). Only the default method `"rank"` is
modelled; the method-validation step always leaves it at `"rank"` in the
engine. -/

/-- The cleaning loop: keep the numeric, non-NaN peer values. -/
def cleanPeers (peer_values : List (Option ℚ)) : List ℚ :=
  peer_values.filterMap id

/-- The pool the percentile is ranked over: the cleaned peers, with the
subject value appended only when it is not already present
(`if value not in cleaned: cleaned.append(float(value))`). -/
def buildPool (value : ℚ) (cleaned : List ℚ) : List ℚ :=
  if value ∈ cleaned then cleaned else cleaned ++ [value]

/-- `scipy.stats.percentileofscore(pool, v, kind='rank')`: with
`left = #\x7bstrictly below\x7d` and `right = #\x7bweakly below\x7d`,
the percentile is `(left + right + 1) · 50 / n` when the score occurs in
the pool (`left < right`) and `(left + right) · 50 / n` otherwise (so the
documented `percentileofscore([1,2,3,4], 3) = 75.0` holds, and the pool
maximum scores 100). -/
def percentileOfScoreRank (pool : List ℚ) (v : ℚ) : ℚ :=
  (((pool.filter (fun x => x < v)).length
    + (pool.filter (fun x => x ≤ v)).length
    + (if (pool.filter (fun x => x < v)).length
          < (pool.filter (fun x => x ≤ v)).length then 1 else 0) : ℚ) * 50)
    / pool.length

/-- `PercentileCalculator.calculate_percentile` with `method="rank"`. -/
def calculate_percentile (value : Option ℚ) (peer_values : List (Option ℚ)) :
    Option ℚ :=
  match value with
  | none => none
  | some v =>
    if peer_values = [] then none
    else
      let cleaned := cleanPeers peer_values
      if cleaned.length < 1 then none
      else
        let pool := buildPool v cleaned
        if pool.length < 2 then none
        else some (roundTo 2 (percentileOfScoreRank pool v))

/-! ## Metric scoring (`src/scoring/metric_scorer.py`) -/

/-- One value of the `scored_metrics` dict built by `score_all_metrics`. -/
structure MetricScoreEntry where
  percentile : Option ℚ
  score : Option ℚ
  category : String
  weight : ℚ
  lower_is_better : Bool
  display_name : String
deriving Repr, DecidableEq

/-- `MetricScorer.score_from_percentile` (called only with a non-`None`
percentile): invert for lower-is-better metrics, default to
higher-is-better when the metric is not found under the category, and
round to 2 decimals. -/
def score_from_percentile (metrics_config : List (String × List (String × MetricCfg)))
    (percentile : ℚ) (metric_name category : String) : ℚ :=
  let lib :=
    match alookup category metrics_config with
    | none => false
    | some cat_cfg =>
      match alookup metric_name cat_cfg with
      | none => false
      | some info => info.lower_is_better
  roundTo 2 (if lib then 100 - percentile else percentile)

/-- The entry built for a metric present in `percentiles` with value `None`. -/
def absentEntry (category metric_name : String) (info : MetricCfg) : MetricScoreEntry :=
  ⟨none, none, category, info.weight, info.lower_is_better,
    info.display_name.getD metric_name⟩

/-- The entry built for a metric with a concrete percentile. -/
def presentEntry (metrics_config : List (String × List (String × MetricCfg)))
    (category metric_name : String) (info : MetricCfg) (p : ℚ) : MetricScoreEntry :=
  ⟨some p, some (score_from_percentile metrics_config p metric_name category),
    category, info.weight, info.lower_is_better, info.display_name.getD metric_name⟩

/-- The inner loop of `score_all_metrics` over one category's metrics:
a metric whose name is **not** a key of `percentiles` is skipped
(`continue`); a key mapped to `None` yields an entry with absent
percentile and score. -/
def scoreCategoryMetrics (metrics_config : List (String × List (String × MetricCfg)))
    (category : String) (metrics : List (String × MetricCfg))
    (percentiles : List (String × Option ℚ)) : List (String × MetricScoreEntry) :=
  metrics.foldr
    (fun m inner =>
      match alookup m.1 percentiles with
      | none => inner
      | some none => (m.1, absentEntry category m.1 m.2) :: inner
      | some (some p) => (m.1, presentEntry metrics_config category m.1 m.2 p) :: inner)
    []

/-- `MetricScorer.score_all_metrics`: iterate the configured categories and
metrics in order. -/
def score_all_metrics (metrics_config : List (String × List (String × MetricCfg)))
    (percentiles : List (String × Option ℚ)) : List (String × MetricScoreEntry) :=
  metrics_config.foldr
    (fun cat acc =>
      scoreCategoryMetrics metrics_config cat.1 cat.2 percentiles ++ acc)
    []

/-! ## Category aggregation (`src/scoring/category_aggregator.py`) -/

/-- One element of `available_metrics`. `adjusted_weight` is `none` until
the renormalization loop sets it (the zero-total-weight early return
leaves it unset). -/
structure AvailMetric where
  name : String
  score : ℚ
  weight : ℚ
  percentile : Option ℚ
  display_name : String
  adjusted_weight : Option ℚ
deriving Repr, DecidableEq

/-- The dict returned by `aggregate_category`. -/
structure AggResult where
  score : Option ℚ
  metrics : List AvailMetric
  missing_metrics : List String
deriving Repr, DecidableEq

/-- The availability split: a configured metric is available when it has an
entry in `metric_scores` whose `score` is not `None`; otherwise it goes to
`missing_metrics`. -/
def splitAvail (cat_cfg : List (String × MetricCfg))
    (metric_scores : List (String × MetricScoreEntry)) :
    List AvailMetric × List String :=
  cat_cfg.foldr
    (fun m acc =>
      match alookup m.1 metric_scores with
      | some entry =>
        match entry.score with
        | some s =>
          (⟨m.1, s, m.2.weight, entry.percentile,
            m.2.display_name.getD m.1, none⟩ :: acc.1, acc.2)
        | none => (acc.1, m.1 :: acc.2)
      | none => (acc.1, m.1 :: acc.2))
    ([], [])

/-- `CategoryAggregator.aggregate_category`. -/
def aggregate_category (metrics_config : List (String × List (String × MetricCfg)))
    (category : String) (metric_scores : List (String × MetricScoreEntry)) :
    AggResult :=
  match alookup category metrics_config with
  | none => ⟨none, [], []⟩
  | some cat_cfg =>
    if cat_cfg = [] then ⟨none, [], []⟩
    else
      let available := (splitAvail cat_cfg metric_scores).1
      let missing := (splitAvail cat_cfg metric_scores).2
      if available = [] then ⟨none, [], missing⟩
      else
        let total := (available.map (·.weight)).sum
        if total = 0 then ⟨none, available, missing⟩
        else
          let adjusted := available.map
            (fun m => { m with adjusted_weight := some (m.weight / total) })
          ⟨some (roundTo 2 ((adjusted.map
              (fun m => m.score * (m.adjusted_weight.getD 0))).sum)),
            adjusted, missing⟩

/-- `CategoryAggregator.aggregate_all_categories`. -/
def aggregate_all_categories (metrics_config : List (String × List (String × MetricCfg)))
    (metric_scores : List (String × MetricScoreEntry)) :
    List (String × AggResult) :=
  metrics_config.map (fun c => (c.1, aggregate_category metrics_config c.1 metric_scores))

/-! ## Full adjustment pass (`ContextualAdjuster.apply_all_adjustments`) -/

/-- `raw_scores` extraction: a category's score with `None` replaced by 50,
and `raw_scores.get(cat, 50)` for a category missing entirely. -/
def rawScoreOf (category_results : List (String × AggResult)) (cat : String) : ℚ :=
  match alookup cat category_results with
  | none => 50
  | some r => r.score.getD 50

/-- `apply_all_adjustments`: the `adjusted_scores` dict (growth is passed
through unadjusted). -/
def apply_all_adjustments (category_results : List (String × AggResult))
    (raw_metrics : List (String × Option ℚ)) (th : Thresholds) :
    List (String × ℚ) :=
  let v := (adjust_valuation_for_growth (rawScoreOf category_results "valuation")
      (rawScoreOf category_results "growth")).1
  let r := (adjust_risk_for_liquidity (rawScoreOf category_results "risk")
      raw_metrics th).1
  let p := (adjust_profitability_for_growth_stage
      (rawScoreOf category_results "profitability")
      (rawScoreOf category_results "growth") raw_metrics).1
  [("valuation", v), ("risk", r), ("profitability", p),
   ("growth", rawScoreOf category_results "growth")]

/-! ## Final scoring (`src/scoring/final_scorer.py`) -/

/-- `FinalScorer.__init__`: when the weights do not sum to within
[0.99, 1.01] they are divided by their total. -/
def normalizeWeights (category_weights : List (String × ℚ)) : List (String × ℚ) :=
  let total := (category_weights.map (·.2)).sum
  if 99/100 ≤ total ∧ total ≤ 101/100 then category_weights
  else category_weights.map (fun c => (c.1, c.2 / total))

/-- The dict returned by `calculate_final_score`, plus the loop's
`total_weight_used` and whether the `total_weight_used < 0.99`
renormalization branch fired. -/
structure FinalResult where
  final_score : ℚ
  weighted_sum : ℚ
  total_weight_used : ℚ
  rescaled : Bool
deriving Repr, DecidableEq

/-- The effective score of a category inside the final-score loop: the
looked-up score, with an absent key (or an explicit `None`) replaced by the
neutral 50. -/
def effScore (category_scores : List (String × Option ℚ)) (cat : String) : ℚ :=
  (rawGet category_scores cat).getD 50

/-- `FinalScorer.calculate_final_score`: iterate the configured weights,
accumulate `weight × score` (missing score → 50), rescale when less than
0.99 of the weight was used, and round to 1 decimal. -/
def calculate_final_score (category_weights : List (String × ℚ))
    (category_scores : List (String × Option ℚ)) : FinalResult :=
  let ws := (category_weights.map
    (fun c => c.2 * effScore category_scores c.1)).sum
  let tw := (category_weights.map (·.2)).sum
  if tw < 99/100 then
    ⟨roundTo 1 (ws / tw), ws / tw, tw, true⟩
  else
    ⟨roundTo 1 ws, ws, tw, false⟩

/-- The rating/description/action dict from `interpret_score`. -/
structure Interpretation where
  rating : String
  description : String
  action : String
deriving Repr, DecidableEq

/-- `FinalScorer.interpret_score`. -/
def interpret_score (score : ℚ) : Interpretation :=
  if 80 ≤ score then
    ⟨"Excellent", "Strong fundamentals across all categories",
      "Strong buy candidate - consider for portfolio"⟩
  else if 65 ≤ score then
    ⟨"Good", "Solid fundamentals with some strengths",
      "Buy candidate - monitor key metrics"⟩
  else if 50 ≤ score then
    ⟨"Average", "Mixed fundamentals",
      "Hold or further research - compare alternatives"⟩
  else if 35 ≤ score then
    ⟨"Below Average", "Concerning fundamentals",
      "Avoid unless deep value opportunity"⟩
  else
    ⟨"Poor", "Weak fundamentals across categories",
      "Avoid - high risk of underperformance"⟩

/-! ## Engine core (`src/scoring/engine.py`, steps 4–7 of `score_stock`)

Once peer data for the ticker has been fetched (the only data-availability
check in `score_stock`), the remaining pipeline is a total function: score
the percentiles, aggregate categories, apply adjustments, compute the
final score. -/

/-- Steps 4–7 of `StockScoringEngine.score_stock`: from the per-metric
percentiles and the subject's raw metric dict to the final score. -/
def scoreStockCore (metrics_config : List (String × List (String × MetricCfg)))
    (category_weights : List (String × ℚ)) (th : Thresholds)
    (percentiles : List (String × Option ℚ))
    (raw_metrics : List (String × Option ℚ)) : FinalResult :=
  let metric_scores := score_all_metrics metrics_config percentiles
  let category_results := aggregate_all_categories metrics_config metric_scores
  let adjusted := apply_all_adjustments category_results raw_metrics th
  calculate_final_score category_weights (adjusted.map (fun p => (p.1, some p.2)))

/-- `score_stock` as a whole: `none` when the ticker is absent from the
fetched peer data (`if ticker not in peer_data: return None`); otherwise
the core pipeline always produces a result. -/
def score_stock (metrics_config : List (String × List (String × MetricCfg)))
    (category_weights : List (String × ℚ)) (th : Thresholds)
    (ticker_data_available : Bool)
    (percentiles raw_metrics : List (String × Option ℚ)) : Option FinalResult :=
  if ticker_data_available then
    some (scoreStockCore metrics_config category_weights th percentiles raw_metrics)
  else none

/-! ## Helper lemmas -/

@[simp] theorem alookup_nil {β : Type} (k : String) :
    alookup k ([] : List (String × β)) = none := rfl

@[simp] theorem alookup_cons {β : Type} (k a : String) (b : β)
    (t : List (String × β)) :
    alookup k ((a, b) :: t) = if a = k then some b else alookup k t := rfl

theorem alookup_mem {β : Type} (k : String) (l : List (String × β)) (b : β)
    (h : alookup k l = some b) : (k, b) ∈ l := by
  induction l with
  | nil => simp [alookup] at h
  | cons hd tl ih =>
    obtain ⟨a, v⟩ := hd
    unfold alookup at h
    by_cases hak : a = k
    · rw [if_pos hak] at h
      subst hak
      injection h with h
      subst h
      exact List.mem_cons_self _ _
    · rw [if_neg hak] at h
      exact List.mem_cons_of_mem _ (ih h)

theorem alookup_isSome_iff {β : Type} (k : String) (l : List (String × β)) :
    (alookup k l).isSome ↔ k ∈ l.map Prod.fst := by
  induction l with
  | nil => simp [alookup]
  | cons hd tl ih =>
    obtain ⟨a, v⟩ := hd
    unfold alookup
    by_cases hak : a = k
    · subst hak
      simp
    · rw [if_neg hak]
      simp only [List.map_cons, List.mem_cons]
      rw [ih]
      constructor
      · exact Or.inr
      · rintro (h | h)
        · exact absurd h.symm hak
        · exact h

theorem alookup_append {β : Type} (k : String) (l₁ l₂ : List (String × β)) :
    alookup k (l₁ ++ l₂) = (alookup k l₁).orElse (fun _ => alookup k l₂) := by
  induction l₁ with
  | nil => simp [Option.orElse]
  | cons hd tl ih =>
    obtain ⟨a, v⟩ := hd
    by_cases hak : a = k
    · simp [hak, Option.orElse]
    · simp only [List.cons_append, alookup_cons, if_neg hak, ih]

theorem alookup_eq_none_of_not_mem {β : Type} (k : String) (l : List (String × β))
    (h : k ∉ l.map Prod.fst) : alookup k l = none := by
  rcases hl : alookup k l with _ | b
  · rfl
  · exact absurd ((alookup_isSome_iff k l).mp (by rw [hl]; rfl)) h

theorem list_sum_map_div {α : Type} (l : List α) (f : α → ℚ) (t : ℚ) :
    (l.map (fun x => f x / t)).sum = (l.map f).sum / t := by
  induction l with
  | nil => simp
  | cons hd tl ih => simp [ih, add_div]

/-! ## Claim theorems -/

/-- Claim C5: for all valuation and growth scores in [0,100],
`adjust_valuation_for_growth` returns
`min(valuation + min((growth − 70)·0.5, 20), 100)` with an explanation
exactly when `valuation < 50` and `growth > 70`, and the unchanged
valuation score with no explanation otherwise. -/
theorem C5_adjust_valuation_for_growth_spec (v g : ℚ)
    (hv : 0 ≤ v ∧ v ≤ 100) (hg : 0 ≤ g ∧ g ≤ 100) :
    (adjust_valuation_for_growth v g
        = (min (v + min ((g - 70) * (1/2)) 20) 100, true) ↔ v < 50 ∧ 70 < g)
    ∧ (adjust_valuation_for_growth v g = (v, false) ↔ ¬(v < 50 ∧ 70 < g)) := by
  unfold adjust_valuation_for_growth
  by_cases h : v < 50 ∧ 70 < g
  · rw [if_pos h]
    simp [h]
  · rw [if_neg h]
    simp [h]

/-- Witness for C5 at the spec's Scenario C: valuation 35, growth 85
gives adjusted valuation 42.5 with an adjustment applied. -/
theorem C5_witness :
    adjust_valuation_for_growth 35 85 = (85/2, true) := by
  have h := (C5_adjust_valuation_for_growth_spec 35 85
      (by norm_num) (by norm_num)).1.mpr (by norm_num)
  rw [h]
  norm_num [min_def]

/-- Claim C6: for every risk score in [0,100] and raw metric map, when both
`debt_to_equity` and `current_ratio` are present, the debt exceeds the
high-debt threshold and the current ratio is below the weak-liquidity
threshold, `adjust_risk_for_liquidity` returns
`max(risk − min(severity·10, 25), 0)` with
`severity = (debt − high_debt)·(weak_liquidity − current_ratio)`;
when either metric is absent the risk score is returned unchanged. -/
theorem C6_adjust_risk_for_liquidity_spec (risk : ℚ)
    (raw : List (String × Option ℚ)) (th : Thresholds)
    (h0 : 0 ≤ risk ∧ risk ≤ 100) :
    (∀ d c, rawGet raw "debt_to_equity" = some d →
      rawGet raw "current_ratio" = some c →
      th.high_debt < d → c < th.weak_liquidity →
      adjust_risk_for_liquidity risk raw th
        = (max (risk - min ((d - th.high_debt) * (th.weak_liquidity - c) * 10) 25) 0,
            true))
    ∧ ((rawGet raw "debt_to_equity" = none ∨ rawGet raw "current_ratio" = none) →
      adjust_risk_for_liquidity risk raw th = (risk, false)) := by
  constructor
  · intro d c hd hc h1 h2
    unfold adjust_risk_for_liquidity
    rw [hd, hc]
    simp [h1, h2]
  · intro h
    unfold adjust_risk_for_liquidity
    rcases hA : rawGet raw "debt_to_equity" with _ | d <;>
      rcases hB : rawGet raw "current_ratio" with _ | c <;>
      simp_all

/-- Witness for C6 at the spec's Scenario D: risk 45, debt/equity 3.5,
current ratio 0.8, thresholds (2.0, 1.2) give adjusted risk 39.0. -/
theorem C6_witness :
    adjust_risk_for_liquidity 45
      [("debt_to_equity", some (7/2)), ("current_ratio", some (4/5))]
      THRESHOLDS = (39, true) := by
  have h := (C6_adjust_risk_for_liquidity_spec 45
      [("debt_to_equity", some (7/2)), ("current_ratio", some (4/5))]
      THRESHOLDS (by norm_num)).1 (7/2) (4/5)
      (by simp [rawGet]) (by simp [rawGet])
      (by norm_num [THRESHOLDS]) (by norm_num [THRESHOLDS])
  rw [h]
  norm_num [THRESHOLDS, min_def, max_def]

/-- Claim C9: for input scores in [0,100], each adjustment only moves its
score in its stated direction: the valuation and profitability adjusters
never decrease their score, and the risk adjuster never increases it. -/
theorem C9_adjustments_monotone (v g p r : ℚ)
    (raw : List (String × Option ℚ)) (th : Thresholds)
    (hv : 0 ≤ v ∧ v ≤ 100) (hg : 0 ≤ g ∧ g ≤ 100)
    (hp : 0 ≤ p ∧ p ≤ 100) (hr : 0 ≤ r ∧ r ≤ 100) :
    v ≤ (adjust_valuation_for_growth v g).1
    ∧ p ≤ (adjust_profitability_for_growth_stage p g raw).1
    ∧ (adjust_risk_for_liquidity r raw th).1 ≤ r := by
  refine ⟨?_, ?_, ?_⟩
  · unfold adjust_valuation_for_growth
    by_cases h : v < 50 ∧ 70 < g
    · rw [if_pos h]
      simp only
      apply le_min _ hv.2
      have hadj : (0 : ℚ) ≤ min ((g - 70) * (1/2)) 20 :=
        le_min (by linarith [h.2]) (by norm_num)
      linarith
    · rw [if_neg h]
  · unfold adjust_profitability_for_growth_stage
    rcases rawGet raw "revenue_growth" with _ | rev
    · exact le_refl _
    · simp only
      by_cases h : p < 40 ∧ 30/100 < rev
      · rw [if_pos h]
        simp only
        apply le_min _ hp.2
        have hadj : (0 : ℚ) ≤ min (rev * 30) 15 :=
          le_min (by linarith [h.2]) (by norm_num)
        linarith
      · rw [if_neg h]
  · unfold adjust_risk_for_liquidity
    rcases rawGet raw "debt_to_equity" with _ | d
    · exact le_refl _
    · rcases rawGet raw "current_ratio" with _ | c
      · exact le_refl _
      · simp only
        by_cases h : th.high_debt < d ∧ c < th.weak_liquidity
        · rw [if_pos h]
          simp only
          apply max_le _ hr.1
          have hadj : (0 : ℚ) ≤ min ((d - th.high_debt) * (th.weak_liquidity - c) * 10) 25 := by
            apply le_min _ (by norm_num)
            have h1 : (0 : ℚ) ≤ d - th.high_debt := by linarith [h.1]
            have h2 : (0 : ℚ) ≤ th.weak_liquidity - c := by linarith [h.2]
            positivity
          linarith
        · rw [if_neg h]

/-- Witness for C9 at neutral inputs: all three adjusters leave a 50
score where the adjustment direction permits. -/
theorem C9_witness :
    50 ≤ (adjust_valuation_for_growth 50 50).1
    ∧ 50 ≤ (adjust_profitability_for_growth_stage 50 50 []).1
    ∧ (adjust_risk_for_liquidity 50 [] THRESHOLDS).1 ≤ 50 :=
  C9_adjustments_monotone 50 50 50 50 [] THRESHOLDS
    (by norm_num) (by norm_num) (by norm_num) (by norm_num)

/-- Claim C8: `interpret_score` rates ≥80 Excellent, [65,80) Good,
[50,65) Average, [35,50) Below Average, and everything below 35 Poor,
with each band's lower bound inclusive. -/
theorem C8_interpret_score_bands (s : ℚ) :
    (80 ≤ s → (interpret_score s).rating = "Excellent")
    ∧ (65 ≤ s ∧ s < 80 → (interpret_score s).rating = "Good")
    ∧ (50 ≤ s ∧ s < 65 → (interpret_score s).rating = "Average")
    ∧ (35 ≤ s ∧ s < 50 → (interpret_score s).rating = "Below Average")
    ∧ (s < 35 → (interpret_score s).rating = "Poor") := by
  refine ⟨?_, ?_, ?_, ?_, ?_⟩ <;> intro h <;> unfold interpret_score
  · rw [if_pos h]
  · rw [if_neg (by linarith [h.2]), if_pos h.1]
  · rw [if_neg (by linarith [h.2]), if_neg (by linarith [h.2]), if_pos h.1]
  · rw [if_neg (by linarith [h.2]), if_neg (by linarith [h.2]),
      if_neg (by linarith [h.2]), if_pos h.1]
  · rw [if_neg (by linarith), if_neg (by linarith), if_neg (by linarith),
      if_neg (by linarith)]

/-- Witness for C8 at the inclusive band boundaries 80, 65, 50, 35 and at 20. -/
theorem C8_witness :
    (interpret_score 80).rating = "Excellent"
    ∧ (interpret_score 65).rating = "Good"
    ∧ (interpret_score 50).rating = "Average"
    ∧ (interpret_score 35).rating = "Below Average"
    ∧ (interpret_score 20).rating = "Poor" :=
  ⟨(C8_interpret_score_bands 80).1 (by norm_num),
   (C8_interpret_score_bands 65).2.1 ⟨by norm_num, by norm_num⟩,
   (C8_interpret_score_bands 50).2.2.1 ⟨by norm_num, by norm_num⟩,
   (C8_interpret_score_bands 35).2.2.2.1 ⟨by norm_num, by norm_num⟩,
   (C8_interpret_score_bands 20).2.2.2.2 (by norm_num)⟩

/-- Claim C4: for every category with at least one available metric and
positive total available weight, `aggregate_category` gives every
available metric `adjusted_weight = weight / total_available_weight`,
and the adjusted weights sum to exactly 1 (hence within 1e-6 of 1.0),
however many of the category's metrics are missing. -/
theorem C4_adjusted_weights_renormalize
    (metrics_config : List (String × List (String × MetricCfg)))
    (category : String) (metric_scores : List (String × MetricScoreEntry))
    (cat_cfg : List (String × MetricCfg))
    (hcat : alookup category metrics_config = some cat_cfg)
    (havail : (splitAvail cat_cfg metric_scores).1 ≠ [])
    (hpos : 0 < ((splitAvail cat_cfg metric_scores).1.map (·.weight)).sum) :
    (∀ m ∈ (aggregate_category metrics_config category metric_scores).metrics,
      m.adjusted_weight = some (m.weight /
        ((splitAvail cat_cfg metric_scores).1.map (·.weight)).sum))
    ∧ ((aggregate_category metrics_config category metric_scores).metrics.map
        (fun m => m.adjusted_weight.getD 0)).sum = 1
    ∧ |((aggregate_category metrics_config category metric_scores).metrics.map
        (fun m => m.adjusted_weight.getD 0)).sum - 1| ≤ 1/1000000 := by
  have hne : cat_cfg ≠ [] := by
    intro hnil
    apply havail
    rw [hnil]
    rfl
  have hagg : (aggregate_category metrics_config category metric_scores).metrics
      = (splitAvail cat_cfg metric_scores).1.map
          (fun m => { m with adjusted_weight := some (m.weight /
            ((splitAvail cat_cfg metric_scores).1.map (·.weight)).sum) }) := by
    unfold aggregate_category
    rw [hcat]
    simp only [if_neg hne, if_neg havail, if_neg (ne_of_gt hpos)]
  refine ⟨?_, ?_, ?_⟩
  · intro m hm
    rw [hagg] at hm
    simp only [List.mem_map] at hm
    obtain ⟨a, _, rfl⟩ := hm
    rfl
  · rw [hagg]
    rw [List.map_map]
    have hcomp : ((fun m : AvailMetric => m.adjusted_weight.getD 0) ∘
        (fun m : AvailMetric => { m with adjusted_weight := some (m.weight /
          ((splitAvail cat_cfg metric_scores).1.map (·.weight)).sum) }))
        = fun m : AvailMetric => m.weight /
          ((splitAvail cat_cfg metric_scores).1.map (·.weight)).sum := by
      funext m
      rfl
    rw [hcomp, list_sum_map_div]
    exact div_self (ne_of_gt hpos)
  · rw [hagg]
    rw [List.map_map]
    have hcomp : ((fun m : AvailMetric => m.adjusted_weight.getD 0) ∘
        (fun m : AvailMetric => { m with adjusted_weight := some (m.weight /
          ((splitAvail cat_cfg metric_scores).1.map (·.weight)).sum) }))
        = fun m : AvailMetric => m.weight /
          ((splitAvail cat_cfg metric_scores).1.map (·.weight)).sum := by
      funext m
      rfl
    rw [hcomp, list_sum_map_div, div_self (ne_of_gt hpos)]
    norm_num

/-- Witness for C4: the valuation category with only `pe_ratio` available
(weight 0.40 of the category's 1.00 configured weight) renormalizes the
single available weight to exactly 1. -/
theorem C4_witness :
    (∀ m ∈ (aggregate_category METRICS "valuation"
        (score_all_metrics METRICS [("pe_ratio", some 70)])).metrics,
      m.adjusted_weight = some (m.weight /
        ((splitAvail [ ("pe_ratio", ⟨40/100, true, some "P/E Ratio"⟩)
        , ("peg_ratio", ⟨35/100, true, some "PEG Ratio"⟩)
        , ("price_to_fcf", ⟨25/100, true, some "Price/FCF"⟩) ]
          (score_all_metrics METRICS [("pe_ratio", some 70)])).1.map (·.weight)).sum))
    ∧ ((aggregate_category METRICS "valuation"
        (score_all_metrics METRICS [("pe_ratio", some 70)])).metrics.map
          (fun m => m.adjusted_weight.getD 0)).sum = 1 := by
  have h := C4_adjusted_weights_renormalize METRICS "valuation"
    (score_all_metrics METRICS [("pe_ratio", some 70)])
    [ ("pe_ratio", ⟨40/100, true, some "P/E Ratio"⟩)
    , ("peg_ratio", ⟨35/100, true, some "PEG Ratio"⟩)
    , ("price_to_fcf", ⟨25/100, true, some "Price/FCF"⟩) ]
    (by simp [METRICS])
    (by
      simp [splitAvail, score_all_metrics, scoreCategoryMetrics, METRICS,
        presentEntry, absentEntry])
    (by
      simp [splitAvail, score_all_metrics, scoreCategoryMetrics, METRICS,
        presentEntry, absentEntry])
  exact ⟨h.1, h.2.1⟩

theorem effScore_bounds (category_scores : List (String × Option ℚ)) (cat : String)
    (hs : ∀ p ∈ category_scores, ∀ s, p.2 = some s → 0 ≤ s ∧ s ≤ 100) :
    0 ≤ effScore category_scores cat ∧ effScore category_scores cat ≤ 100 := by
  unfold effScore rawGet
  rcases hlk : alookup cat category_scores with _ | ob
  · norm_num
  · rcases ob with _ | s
    · norm_num
    · have hmem := alookup_mem cat category_scores (some s) hlk
      have := hs (cat, some s) hmem s rfl
      simpa using this

theorem weighted_sum_bounds (w : List (String × ℚ))
    (category_scores : List (String × Option ℚ))
    (hw : ∀ p ∈ w, 0 ≤ p.2)
    (hs : ∀ p ∈ category_scores, ∀ s, p.2 = some s → 0 ≤ s ∧ s ≤ 100) :
    0 ≤ (w.map (fun c => c.2 * effScore category_scores c.1)).sum
    ∧ (w.map (fun c => c.2 * effScore category_scores c.1)).sum
        ≤ 100 * (w.map (·.2)).sum := by
  induction w with
  | nil => simp
  | cons hd tl ih =>
    have hhd : 0 ≤ hd.2 := hw hd (List.mem_cons_self _ _)
    have htl := ih (fun p hp => hw p (List.mem_cons_of_mem _ hp))
    have heff := effScore_bounds category_scores hd.1 hs
    simp only [List.map_cons, List.sum_cons]
    constructor
    · have : 0 ≤ hd.2 * effScore category_scores hd.1 :=
        mul_nonneg hhd heff.1
      linarith [htl.1]
    · have : hd.2 * effScore category_scores hd.1 ≤ hd.2 * 100 :=
        mul_le_mul_of_nonneg_left heff.2 hhd
      have h2 := htl.2
      ring_nf
      ring_nf at h2 this
      linarith

/-- Claim C7: for category scores each in [0,100] and nonnegative weights
summing to 1, `calculate_final_score` returns
`final_score = round(weighted_sum, 1)` lying in [0,100], where the
weighted sum substitutes the neutral 50 for absent category scores. -/
theorem C7_final_score_bounds (w : List (String × ℚ))
    (category_scores : List (String × Option ℚ))
    (hw : ∀ p ∈ w, 0 ≤ p.2)
    (hsum : (w.map (·.2)).sum = 1)
    (hs : ∀ p ∈ category_scores, ∀ s, p.2 = some s → 0 ≤ s ∧ s ≤ 100) :
    calculate_final_score w category_scores
      = ⟨roundTo 1 ((w.map (fun c => c.2 * effScore category_scores c.1)).sum),
          (w.map (fun c => c.2 * effScore category_scores c.1)).sum, 1, false⟩
    ∧ 0 ≤ (calculate_final_score w category_scores).final_score
    ∧ (calculate_final_score w category_scores).final_score ≤ 100 := by
  have hws := weighted_sum_bounds w category_scores hw hs
  rw [hsum] at hws
  have heq : calculate_final_score w category_scores
      = ⟨roundTo 1 ((w.map (fun c => c.2 * effScore category_scores c.1)).sum),
          (w.map (fun c => c.2 * effScore category_scores c.1)).sum, 1, false⟩ := by
    unfold calculate_final_score
    rw [hsum]
    rw [if_neg (by norm_num)]
  refine ⟨heq, ?_, ?_⟩
  · rw [heq]
    exact roundTo_nonneg 1 _ hws.1
  · rw [heq]
    exact roundTo_le 1 _ 100 ⟨100, by norm_num⟩ (by linarith [hws.2])

/-- Witness for C7 at the source's own test case: the default weights with
category scores (60, 80, 70, 50) give a final score within [0,100]. -/
theorem C7_witness :
    0 ≤ (calculate_final_score CATEGORY_WEIGHTS
        [("valuation", some 60), ("growth", some 80),
         ("profitability", some 70), ("risk", some 50)]).final_score
    ∧ (calculate_final_score CATEGORY_WEIGHTS
        [("valuation", some 60), ("growth", some 80),
         ("profitability", some 70), ("risk", some 50)]).final_score ≤ 100 := by
  have h := C7_final_score_bounds CATEGORY_WEIGHTS
    [("valuation", some 60), ("growth", some 80),
     ("profitability", some 70), ("risk", some 50)]
    (by
      intro p hp
      simp [CATEGORY_WEIGHTS] at hp
      rcases hp with h | h | h | h <;> rw [h] <;> norm_num)
    (by simp [CATEGORY_WEIGHTS]; norm_num)
    (by
      intro p hp s hps
      simp at hp
      rcases hp with h | h | h | h <;> rw [h] at hps <;>
        simp at hps <;> rw [← hps] <;> norm_num)
  exact ⟨h.2.1, h.2.2⟩

/-- Claim C10: `total_weight_used` always equals the full sum of the
configured category weights, whatever scores are supplied (absent scores
still contribute their weight through the neutral-50 substitute, and
score keys outside the weight table contribute nothing); and with the
constructor-normalized weights of a table whose raw weights have nonzero
sum, the `total_weight_used < 0.99` rescaling branch never fires. -/
theorem C10_total_weight_used (w0 : List (String × ℚ))
    (category_scores : List (String × Option ℚ))
    (h0 : (w0.map (·.2)).sum ≠ 0) :
    (∀ (cw : List (String × ℚ)) (cs : List (String × Option ℚ)),
      (calculate_final_score cw cs).total_weight_used = (cw.map (·.2)).sum)
    ∧ (calculate_final_score (normalizeWeights w0) category_scores).rescaled
        = false := by
  constructor
  · intro cw cs
    by_cases h : (cw.map (·.2)).sum < 99/100
    · simp [calculate_final_score, h]
    · simp [calculate_final_score, h]
  · have hge : 99/100 ≤ ((normalizeWeights w0).map (·.2)).sum := by
      unfold normalizeWeights
      by_cases hin : 99/100 ≤ (w0.map (·.2)).sum ∧ (w0.map (·.2)).sum ≤ 101/100
      · rw [if_pos hin]
        exact hin.1
      · rw [if_neg hin]
        have hmap : (w0.map (fun c => (c.1, c.2 / (w0.map (·.2)).sum))).map (·.2)
            = w0.map (fun c => c.2 / (w0.map (·.2)).sum) := by
          rw [List.map_map]
          rfl
        rw [hmap, list_sum_map_div, div_self h0]
        norm_num
    unfold calculate_final_score
    rw [if_neg (not_lt.mpr hge)]

/-- Witness for C10: a weight table `[("a", 2)]` (sum 2, so the
constructor normalizes it) never triggers the rescaling branch, and
`total_weight_used` is the weight sum even with no scores supplied. -/
theorem C10_witness :
    (calculate_final_score (normalizeWeights [("a", 2)]) []).total_weight_used
      = ((normalizeWeights [("a", (2 : ℚ))]).map (·.2)).sum
    ∧ (calculate_final_score (normalizeWeights [("a", 2)]) []).rescaled = false := by
  have h := C10_total_weight_used [("a", (2 : ℚ))] [] (by norm_num)
  exact ⟨h.1 (normalizeWeights [("a", 2)]) [], h.2⟩

/-- Counterexample to C3 as stated: with subject value 20 and peers
[10, 20, 30] (all present, cleaned pool non-empty), the subject's value is
**not** inserted — the pool keeps length 3 and still holds a single
occurrence of 20, because `calculate_percentile` only appends the value
when it is not already in the cleaned pool. -/
theorem C3_counterexample :
    cleanPeers [some 10, some 20, some 30] = [10, 20, 30]
    ∧ buildPool 20 (cleanPeers [some 10, some 20, some 30]) = [10, 20, 30]
    ∧ ¬ ((buildPool 20 (cleanPeers [some 10, some 20, some 30])).length
        = (cleanPeers [some 10, some 20, some 30]).length + 1) := by
  have hc : cleanPeers [some 10, some 20, some 30] = [10, 20, 30] := by
    simp [cleanPeers]
  have hb : buildPool 20 (cleanPeers [some 10, some 20, some 30]) = [10, 20, 30] := by
    rw [hc]
    unfold buildPool
    rw [if_pos (by norm_num)]
  refine ⟨hc, hb, ?_⟩
  rw [hb, hc]
  norm_num

/-- Claim C3 as amended: for a present value and a non-empty cleaned peer
pool of size making ranking possible, the comparison pool is the cleaned
peers with the subject value appended **only when it is not already
present**; the pool always contains the subject value and its members are
exactly the cleaned peers together with the subject value, and the
percentile is ranked over that pool. -/
theorem C3_pool_contains_subject (v : ℚ) (peer_values : List (Option ℚ))
    (h1 : peer_values ≠ []) (h2 : cleanPeers peer_values ≠ [])
    (h3 : 2 ≤ (buildPool v (cleanPeers peer_values)).length) :
    calculate_percentile (some v) peer_values
      = some (roundTo 2 (percentileOfScoreRank (buildPool v (cleanPeers peer_values)) v))
    ∧ v ∈ buildPool v (cleanPeers peer_values)
    ∧ (∀ x, x ∈ buildPool v (cleanPeers peer_values)
        ↔ x ∈ cleanPeers peer_values ∨ x = v)
    ∧ (v ∈ cleanPeers peer_values →
        buildPool v (cleanPeers peer_values) = cleanPeers peer_values)
    ∧ (v ∉ cleanPeers peer_values →
        buildPool v (cleanPeers peer_values) = cleanPeers peer_values ++ [v]) := by
  have hlen : ¬ (cleanPeers peer_values).length < 1 := by
    have := List.length_pos.mpr h2
    omega
  refine ⟨?_, ?_, ?_, ?_, ?_⟩
  · show (if peer_values = [] then none
      else if (cleanPeers peer_values).length < 1 then none
      else if (buildPool v (cleanPeers peer_values)).length < 2 then none
      else some (roundTo 2 (percentileOfScoreRank
        (buildPool v (cleanPeers peer_values)) v))) = _
    rw [if_neg h1, if_neg hlen, if_neg (by omega)]
  · unfold buildPool
    split_ifs with h
    · exact h
    · exact List.mem_append_right _ (List.mem_singleton_self v)
  · intro x
    unfold buildPool
    split_ifs with h
    · constructor
      · exact Or.inl
      · rintro (hx | rfl)
        · exact hx
        · exact h
    · simp [List.mem_append]
  · intro h
    unfold buildPool
    rw [if_pos h]
  · intro h
    unfold buildPool
    rw [if_neg h]

/-- Witness for C3's amended theorem: value 25 among peers [10, 20] gets
appended to the pool, which then contains it, and — being the pool
maximum — is ranked at the 100th percentile, as the source's own
self-test expects. -/
theorem C3_witness :
    calculate_percentile (some 25) [some 10, some 20]
      = some (roundTo 2 (percentileOfScoreRank
          (buildPool 25 (cleanPeers [some 10, some 20])) 25))
    ∧ (25 : ℚ) ∈ buildPool 25 (cleanPeers [some 10, some 20])
    ∧ calculate_percentile (some 25) [some 10, some 20] = some 100 := by
  have hc : cleanPeers [some 10, some 20] = [10, 20] := by simp [cleanPeers]
  have hb : buildPool 25 (cleanPeers [some 10, some 20]) = [10, 20, 25] := by
    rw [hc]
    unfold buildPool
    rw [if_neg (by norm_num)]
    rfl
  have h := C3_pool_contains_subject 25 [some 10, some 20]
    (by simp)
    (by simp [cleanPeers])
    (by rw [hb]; norm_num)
  have hper : percentileOfScoreRank [10, 20, 25] 25 = 100 := by
    unfold percentileOfScoreRank
    simp only [List.filter_cons, List.filter_nil, decide_eq_true_eq]
    norm_num
  have hround : roundTo 2 (100 : ℚ) = 100 := by
    have hfl : ⌊(100 : ℚ) * 10 ^ 2⌋ = 10000 := by norm_num
    unfold roundTo rhe
    rw [hfl]
    norm_num
  refine ⟨h.1, h.2.1, ?_⟩
  rw [h.1, hb, hper, hround]

/-! ### Structure of `score_all_metrics` (for C2) -/

/-- All metric names defined in a configuration, in order. -/
def metricNames (cfg : List (String × List (String × MetricCfg))) : List String :=
  cfg.foldr (fun c acc => c.2.map Prod.fst ++ acc) []

/-- `score_all_metrics` with the config used for score lookups (`cfg0`)
decoupled from the categories being iterated (`cats`). -/
def scoreAllAux (cfg0 : List (String × List (String × MetricCfg)))
    (cats : List (String × List (String × MetricCfg)))
    (ps : List (String × Option ℚ)) : List (String × MetricScoreEntry) :=
  cats.foldr (fun cat acc => scoreCategoryMetrics cfg0 cat.1 cat.2 ps ++ acc) []

theorem score_all_metrics_eq_aux (cfg : List (String × List (String × MetricCfg)))
    (ps : List (String × Option ℚ)) :
    score_all_metrics cfg ps = scoreAllAux cfg cfg ps := rfl

theorem scoreAllAux_cons (cfg0 : List (String × List (String × MetricCfg)))
    (c : String × List (String × MetricCfg))
    (rest : List (String × List (String × MetricCfg)))
    (ps : List (String × Option ℚ)) :
    scoreAllAux cfg0 (c :: rest) ps
      = scoreCategoryMetrics cfg0 c.1 c.2 ps ++ scoreAllAux cfg0 rest ps := rfl

theorem metricNames_cons (c : String × List (String × MetricCfg))
    (rest : List (String × List (String × MetricCfg))) :
    metricNames (c :: rest) = c.2.map Prod.fst ++ metricNames rest := rfl

theorem mem_metricNames (cfg : List (String × List (String × MetricCfg))) (m : String) :
    m ∈ metricNames cfg ↔ ∃ c ∈ cfg, m ∈ c.2.map Prod.fst := by
  induction cfg with
  | nil => simp [metricNames]
  | cons c rest ih =>
    rw [metricNames_cons]
    simp only [List.mem_append, List.mem_cons, ih]
    constructor
    · rintro (h | ⟨c', hc', hm⟩)
      · exact ⟨c, Or.inl rfl, h⟩
      · exact ⟨c', Or.inr hc', hm⟩
    · rintro ⟨c', (rfl | hc'), hm⟩
      · exact Or.inl hm
      · exact Or.inr ⟨c', hc', hm⟩

theorem scoreCategoryMetrics_nil (cfg0 : List (String × List (String × MetricCfg)))
    (cat : String) (ps : List (String × Option ℚ)) :
    scoreCategoryMetrics cfg0 cat [] ps = [] := rfl

theorem scoreCategoryMetrics_cons (cfg0 : List (String × List (String × MetricCfg)))
    (cat a : String) (i : MetricCfg) (t : List (String × MetricCfg))
    (ps : List (String × Option ℚ)) :
    scoreCategoryMetrics cfg0 cat ((a, i) :: t) ps
      = (match alookup a ps with
          | none => scoreCategoryMetrics cfg0 cat t ps
          | some none => (a, absentEntry cat a i) :: scoreCategoryMetrics cfg0 cat t ps
          | some (some p) =>
              (a, presentEntry cfg0 cat a i p) :: scoreCategoryMetrics cfg0 cat t ps) :=
  rfl

theorem mem_keys_scoreCategoryMetrics (cfg0 : List (String × List (String × MetricCfg)))
    (cat : String) (metrics : List (String × MetricCfg))
    (ps : List (String × Option ℚ)) (m : String) :
    m ∈ (scoreCategoryMetrics cfg0 cat metrics ps).map Prod.fst
      ↔ m ∈ metrics.map Prod.fst ∧ (alookup m ps).isSome := by
  induction metrics with
  | nil => simp [scoreCategoryMetrics_nil]
  | cons hd t ih =>
    obtain ⟨a, i⟩ := hd
    rw [scoreCategoryMetrics_cons]
    rcases hl : alookup a ps with _ | ob
    · simp only [List.map_cons, List.mem_cons, ih]
      constructor
      · rintro ⟨hm, hs⟩
        exact ⟨Or.inr hm, hs⟩
      · rintro ⟨rfl | hm, hs⟩
        · rw [hl] at hs
          simp at hs
        · exact ⟨hm, hs⟩
    · have hcons : ∀ e : MetricScoreEntry,
          (m ∈ ((a, e) :: scoreCategoryMetrics cfg0 cat t ps).map Prod.fst
            ↔ (m = a ∨ m ∈ t.map Prod.fst) ∧ (alookup m ps).isSome) := by
        intro e
        simp only [List.map_cons, List.mem_cons, ih]
        constructor
        · rintro (rfl | ⟨hm, hs⟩)
          · exact ⟨Or.inl rfl, by rw [hl]; rfl⟩
          · exact ⟨Or.inr hm, hs⟩
        · rintro ⟨rfl | hm, hs⟩
          · exact Or.inl rfl
          · exact Or.inr ⟨hm, hs⟩
      rcases ob with _ | p
      · simpa using hcons (absentEntry cat a i)
      · simpa using hcons (presentEntry cfg0 cat a i p)

theorem keys_scoreCategoryMetrics_sublist
    (cfg0 : List (String × List (String × MetricCfg))) (cat : String)
    (metrics : List (String × MetricCfg)) (ps : List (String × Option ℚ)) :
    List.Sublist ((scoreCategoryMetrics cfg0 cat metrics ps).map Prod.fst)
      (metrics.map Prod.fst) := by
  induction metrics with
  | nil => simp [scoreCategoryMetrics_nil]
  | cons hd t ih =>
    obtain ⟨a, i⟩ := hd
    rw [scoreCategoryMetrics_cons]
    rcases alookup a ps with _ | ob
    · exact ih.cons a
    · rcases ob with _ | p
      · simpa using ih.cons₂ a
      · simpa using ih.cons₂ a

theorem mem_keys_scoreAllAux (cfg0 : List (String × List (String × MetricCfg)))
    (cats : List (String × List (String × MetricCfg)))
    (ps : List (String × Option ℚ)) (m : String) :
    m ∈ (scoreAllAux cfg0 cats ps).map Prod.fst
      ↔ m ∈ metricNames cats ∧ (alookup m ps).isSome := by
  induction cats with
  | nil => simp [scoreAllAux, metricNames]
  | cons c rest ih =>
    rw [scoreAllAux_cons, metricNames_cons]
    simp only [List.map_append, List.mem_append, ih,
      mem_keys_scoreCategoryMetrics]
    constructor
    · rintro (⟨hm, hs⟩ | ⟨hm, hs⟩)
      · exact ⟨Or.inl hm, hs⟩
      · exact ⟨Or.inr hm, hs⟩
    · rintro ⟨hm | hm, hs⟩
      · exact Or.inl ⟨hm, hs⟩
      · exact Or.inr ⟨hm, hs⟩

theorem keys_scoreAllAux_sublist (cfg0 : List (String × List (String × MetricCfg)))
    (cats : List (String × List (String × MetricCfg)))
    (ps : List (String × Option ℚ)) :
    List.Sublist ((scoreAllAux cfg0 cats ps).map Prod.fst) (metricNames cats) := by
  induction cats with
  | nil => simp [scoreAllAux, metricNames]
  | cons c rest ih =>
    rw [scoreAllAux_cons, metricNames_cons, List.map_append]
    exact (keys_scoreCategoryMetrics_sublist cfg0 c.1 c.2 ps).append ih

theorem alookup_scoreCategoryMetrics_absent
    (cfg0 : List (String × List (String × MetricCfg))) (cat : String)
    (metrics : List (String × MetricCfg)) (ps : List (String × Option ℚ))
    (m : String) (info : MetricCfg)
    (hnd : (metrics.map Prod.fst).Nodup) (hm : (m, info) ∈ metrics)
    (hp : alookup m ps = some none) :
    alookup m (scoreCategoryMetrics cfg0 cat metrics ps)
      = some (absentEntry cat m info) := by
  induction metrics with
  | nil => cases hm
  | cons hd t ih =>
    obtain ⟨a, i⟩ := hd
    rw [scoreCategoryMetrics_cons]
    rcases List.mem_cons.mp hm with heq | hmt
    · obtain ⟨rfl, rfl⟩ : a = m ∧ i = info := by
        injection heq.symm with h1 h2
        exact ⟨h1, h2⟩
      rw [hp]
      simp
    · have ham : a ≠ m := by
        rintro rfl
        have : a ∈ t.map Prod.fst := List.mem_map.mpr ⟨(a, info), hmt, rfl⟩
        simp only [List.map_cons, List.nodup_cons] at hnd
        exact hnd.1 this
      have hnd' : (t.map Prod.fst).Nodup := by
        simp only [List.map_cons, List.nodup_cons] at hnd
        exact hnd.2
      rcases alookup a ps with _ | ob
      · exact ih hnd' hmt
      · rcases ob with _ | p <;>
          simpa [ham] using ih hnd' hmt

theorem alookup_scoreAllAux_absent
    (cfg0 : List (String × List (String × MetricCfg)))
    (cats : List (String × List (String × MetricCfg)))
    (ps : List (String × Option ℚ)) (cat : String)
    (catCfg : List (String × MetricCfg)) (m : String) (info : MetricCfg)
    (hnd : (metricNames cats).Nodup)
    (hcat : (cat, catCfg) ∈ cats) (hm : (m, info) ∈ catCfg)
    (hp : alookup m ps = some none) :
    alookup m (scoreAllAux cfg0 cats ps) = some (absentEntry cat m info) := by
  induction cats with
  | nil => cases hcat
  | cons c rest ih =>
    rw [scoreAllAux_cons, alookup_append]
    rw [metricNames_cons, List.nodup_append] at hnd
    rcases List.mem_cons.mp hcat with heq | hrest
    · subst heq
      rw [alookup_scoreCategoryMetrics_absent cfg0 cat catCfg ps m info
        hnd.1 hm hp]
      rfl
    · have hmrest : m ∈ metricNames rest :=
        (mem_metricNames rest m).mpr ⟨(cat, catCfg), hrest,
          List.mem_map.mpr ⟨(m, info), hm, rfl⟩⟩
      have hnotc : m ∉ c.2.map Prod.fst := fun hc =>
        hnd.2.2 hc hmrest
      have hnone : alookup m (scoreCategoryMetrics cfg0 c.1 c.2 ps) = none :=
        alookup_eq_none_of_not_mem m _
          (fun hk => hnotc ((keys_scoreCategoryMetrics_sublist cfg0 c.1 c.2 ps).subset hk))
      rw [hnone]
      exact ih hnd.2.1 hrest

/-- Counterexample to C2 as stated: with an empty percentile map the
result of `score_all_metrics` is empty — the configured metric
`pe_ratio` (and every other configured metric) gets **no** entry, because
metrics absent from the input map are skipped with `continue`. -/
theorem C2_counterexample :
    score_all_metrics METRICS ([] : List (String × Option ℚ)) = []
    ∧ "pe_ratio" ∈ metricNames METRICS
    ∧ "pe_ratio" ∉ (score_all_metrics METRICS
        ([] : List (String × Option ℚ))).map Prod.fst := by
  have h : score_all_metrics METRICS ([] : List (String × Option ℚ)) = [] := rfl
  refine ⟨h, ?_, ?_⟩
  · simp [metricNames, METRICS]
  · rw [h]
    simp

/-- Claim C2 as amended: `score_all_metrics` over the configured metrics
produces exactly one entry per configured metric **whose name appears as a
key of the input map** (metrics entirely absent from the map are skipped);
a key mapped to an absent percentile yields an entry with absent
percentile and score that still carries the configured category, weight,
and display name. -/
theorem C2_entries_iff_key_present (ps : List (String × Option ℚ)) (m : String) :
    ((alookup m (score_all_metrics METRICS ps)).isSome
      ↔ m ∈ metricNames METRICS ∧ (alookup m ps).isSome)
    ∧ ((score_all_metrics METRICS ps).map Prod.fst).Nodup
    ∧ (∀ cat catCfg info, (cat, catCfg) ∈ METRICS → (m, info) ∈ catCfg →
        alookup m ps = some none →
        alookup m (score_all_metrics METRICS ps)
          = some ⟨none, none, cat, info.weight, info.lower_is_better,
              info.display_name.getD m⟩) := by
  have hnd : (metricNames METRICS).Nodup := by decide
  refine ⟨?_, ?_, ?_⟩
  · rw [score_all_metrics_eq_aux, alookup_isSome_iff,
      mem_keys_scoreAllAux]
  · rw [score_all_metrics_eq_aux]
    exact List.Nodup.sublist (keys_scoreAllAux_sublist METRICS METRICS ps) hnd
  · intro cat catCfg info hcat hm hp
    rw [score_all_metrics_eq_aux]
    exact alookup_scoreAllAux_absent METRICS METRICS ps cat catCfg m info
      hnd hcat hm hp

/-- Witness for C2's amended theorem: `roe` supplied with a `None`
percentile gets exactly one entry carrying its configured category
`profitability`, weight 0.40, and display name `ROE`, with absent
percentile and score. -/
theorem C2_witness :
    alookup "roe" (score_all_metrics METRICS [("roe", (none : Option ℚ))])
      = some ⟨none, none, "profitability", 40/100, false, "ROE"⟩ := by
  have h := (C2_entries_iff_key_present [("roe", none)] "roe").2.2
    "profitability"
    [ ("roe", ⟨40/100, false, some "ROE"⟩)
    , ("operating_margin", ⟨30/100, false, none⟩)
    , ("net margin", ⟨30/100, false, some "Net Margin"⟩) ]
    ⟨40/100, false, some "ROE"⟩
    (by
      show _ ∈ METRICS
      unfold METRICS
      exact List.mem_cons_of_mem _ (List.mem_cons_of_mem _ (List.mem_cons_self _ _)))
    (List.mem_cons_self _ _)
    (by simp)
  exact h

/-! ### The pipeline on fully-missing data (for C1) -/

theorem roundTo_fifty : roundTo 1 (50 : ℚ) = 50 := by
  have hfl : ⌊(50 : ℚ) * 10 ^ 1⌋ = 500 := by
    norm_num
  unfold roundTo rhe
  rw [hfl]
  norm_num

/-- On a run where every category score is absent, `apply_all_adjustments`
replaces each with the neutral 50, and (with at most one of
`debt_to_equity`/`current_ratio` available) no adjustment fires, so the
final score is exactly 50. -/
theorem core_of_all_absent (ps raw : List (String × Option ℚ))
    (hall : ∀ p ∈ aggregate_all_categories METRICS (score_all_metrics METRICS ps),
      p.2.score = none)
    (hraw : rawGet raw "debt_to_equity" = none ∨ rawGet raw "current_ratio" = none) :
    scoreStockCore METRICS CATEGORY_WEIGHTS THRESHOLDS ps raw
      = ⟨50, 50, 1, false⟩ := by
  have hagg : aggregate_all_categories METRICS (score_all_metrics METRICS ps)
      = [ ("valuation", aggregate_category METRICS "valuation"
            (score_all_metrics METRICS ps))
        , ("growth", aggregate_category METRICS "growth"
            (score_all_metrics METRICS ps))
        , ("profitability", aggregate_category METRICS "profitability"
            (score_all_metrics METRICS ps))
        , ("risk", aggregate_category METRICS "risk"
            (score_all_metrics METRICS ps)) ] := rfl
  have hv := hall _ (by rw [hagg]; exact List.mem_cons_self _ _)
  have hg := hall _ (by
    rw [hagg]
    exact List.mem_cons_of_mem _ (List.mem_cons_self _ _))
  have hp := hall _ (by
    rw [hagg]
    exact List.mem_cons_of_mem _ (List.mem_cons_of_mem _ (List.mem_cons_self _ _)))
  have hr := hall _ (by
    rw [hagg]
    exact List.mem_cons_of_mem _ (List.mem_cons_of_mem _
      (List.mem_cons_of_mem _ (List.mem_cons_self _ _))))
  simp only at hv hg hp hr
  have hrsV : rawScoreOf (aggregate_all_categories METRICS
      (score_all_metrics METRICS ps)) "valuation" = 50 := by
    unfold rawScoreOf
    rw [hagg]
    simp [hv]
  have hrsG : rawScoreOf (aggregate_all_categories METRICS
      (score_all_metrics METRICS ps)) "growth" = 50 := by
    unfold rawScoreOf
    rw [hagg]
    simp [hg]
  have hrsP : rawScoreOf (aggregate_all_categories METRICS
      (score_all_metrics METRICS ps)) "profitability" = 50 := by
    unfold rawScoreOf
    rw [hagg]
    simp [hp]
  have hrsR : rawScoreOf (aggregate_all_categories METRICS
      (score_all_metrics METRICS ps)) "risk" = 50 := by
    unfold rawScoreOf
    rw [hagg]
    simp [hr]
  have hadjV : (adjust_valuation_for_growth 50 50).1 = 50 := by
    unfold adjust_valuation_for_growth
    rw [if_neg (by norm_num)]
  have hadjR : (adjust_risk_for_liquidity 50 raw THRESHOLDS).1 = 50 := by
    unfold adjust_risk_for_liquidity
    rcases hA : rawGet raw "debt_to_equity" with _ | d
    · rfl
    · rcases hB : rawGet raw "current_ratio" with _ | c
      · rfl
      · rcases hraw with h | h
        · rw [hA] at h
          cases h
        · rw [hB] at h
          cases h
  have hadjP : (adjust_profitability_for_growth_stage 50 50 raw).1 = 50 := by
    unfold adjust_profitability_for_growth_stage
    rcases rawGet raw "revenue_growth" with _ | rev
    · rfl
    · simp only
      rw [if_neg (fun h => absurd h.1 (by norm_num))]
  have hadj : apply_all_adjustments (aggregate_all_categories METRICS
      (score_all_metrics METRICS ps)) raw THRESHOLDS
      = [("valuation", 50), ("risk", 50), ("profitability", 50), ("growth", 50)] := by
    unfold apply_all_adjustments
    rw [hrsV, hrsG, hrsP, hrsR, hadjV, hadjR, hadjP]
  show calculate_final_score CATEGORY_WEIGHTS
      ((apply_all_adjustments (aggregate_all_categories METRICS
        (score_all_metrics METRICS ps)) raw THRESHOLDS).map
          (fun p => (p.1, some p.2)))
    = ⟨50, 50, 1, false⟩
  rw [hadj]
  unfold calculate_final_score
  have hws : ((CATEGORY_WEIGHTS.map
      (fun c => c.2 * effScore ([("valuation", 50), ("risk", 50),
        ("profitability", 50), ("growth", 50)].map
          (fun p => (p.1, some p.2))) c.1))).sum = 50 := by
    simp [CATEGORY_WEIGHTS, effScore, rawGet]
    norm_num
  have htw : ((CATEGORY_WEIGHTS.map (·.2))).sum = 1 := by
    simp [CATEGORY_WEIGHTS]
    norm_num
  rw [hws, htw]
  rw [if_neg (by norm_num)]
  rw [roundTo_fifty]

/-- Counterexample to C1 as stated: the percentile map of a subject with
no available metric in any category (every configured metric's percentile
is `None`, as `calculate_all_percentiles` produces when all stock values
are missing) leaves every category score absent — yet the pipeline does
**not** fail: it substitutes the neutral 50 for every category and
returns a completed result with final score 50.0. -/
theorem C1_counterexample :
    (∀ p ∈ aggregate_all_categories METRICS (score_all_metrics METRICS
        [ ("pe_ratio", (none : Option ℚ)), ("peg_ratio", none), ("price_to_fcf", none)
        , ("revenue_growth", none), ("eps_growth", none)
        , ("roe", none), ("operating_margin", none), ("net margin", none)
        , ("debt_to_equity", none), ("current_ratio", none), ("beta", none) ]),
      p.2.score = none)
    ∧ score_stock METRICS CATEGORY_WEIGHTS THRESHOLDS true
        [ ("pe_ratio", (none : Option ℚ)), ("peg_ratio", none), ("price_to_fcf", none)
        , ("revenue_growth", none), ("eps_growth", none)
        , ("roe", none), ("operating_margin", none), ("net margin", none)
        , ("debt_to_equity", none), ("current_ratio", none), ("beta", none) ]
        [ ("pe_ratio", none), ("peg_ratio", none), ("price_to_fcf", none)
        , ("revenue_growth", none), ("eps_growth", none)
        , ("roe", none), ("operating_margin", none), ("net_margin", none)
        , ("debt_to_equity", none), ("current_ratio", none), ("beta", none) ]
        ≠ none := by
  have hall : ∀ p ∈ aggregate_all_categories METRICS (score_all_metrics METRICS
      [ ("pe_ratio", (none : Option ℚ)), ("peg_ratio", none), ("price_to_fcf", none)
      , ("revenue_growth", none), ("eps_growth", none)
      , ("roe", none), ("operating_margin", none), ("net margin", none)
      , ("debt_to_equity", none), ("current_ratio", none), ("beta", none) ]),
      p.2.score = none := by
    intro p hp
    have hmsc : score_all_metrics METRICS
        [ ("pe_ratio", (none : Option ℚ)), ("peg_ratio", none), ("price_to_fcf", none)
        , ("revenue_growth", none), ("eps_growth", none)
        , ("roe", none), ("operating_margin", none), ("net margin", none)
        , ("debt_to_equity", none), ("current_ratio", none), ("beta", none) ]
        = [ ("pe_ratio", absentEntry "valuation" "pe_ratio" ⟨40/100, true, some "P/E Ratio"⟩)
          , ("peg_ratio", absentEntry "valuation" "peg_ratio" ⟨35/100, true, some "PEG Ratio"⟩)
          , ("price_to_fcf", absentEntry "valuation" "price_to_fcf" ⟨25/100, true, some "Price/FCF"⟩)
          , ("revenue_growth", absentEntry "growth" "revenue_growth" ⟨50/100, false, some "revenue growth"⟩)
          , ("eps_growth", absentEntry "growth" "eps_growth" ⟨50/100, false, some "EPS growth"⟩)
          , ("roe", absentEntry "profitability" "roe" ⟨40/100, false, some "ROE"⟩)
          , ("operating_margin", absentEntry "profitability" "operating_margin" ⟨30/100, false, none⟩)
          , ("net margin", absentEntry "profitability" "net margin" ⟨30/100, false, some "Net Margin"⟩)
          , ("debt_to_equity", absentEntry "risk" "debt_to_equity" ⟨40/100, true, some "Debt/Equity"⟩)
          , ("current_ratio", absentEntry "risk" "current_ratio" ⟨30/100, false, some "Current Ratio"⟩)
          , ("beta", absentEntry "risk" "beta" ⟨30/100, true, some "beta"⟩) ] := by
      simp [score_all_metrics_eq_aux, scoreAllAux, METRICS,
        scoreCategoryMetrics]
    rw [hmsc] at hp
    simp only [aggregate_all_categories, METRICS, List.map_cons, List.map_nil,
      List.mem_cons, List.not_mem_nil, or_false] at hp
    rcases hp with h | h | h | h <;> rw [h] <;> simp [aggregate_category, METRICS,
      splitAvail, absentEntry]
  have hns := core_of_all_absent
    [ ("pe_ratio", (none : Option ℚ)), ("peg_ratio", none), ("price_to_fcf", none)
    , ("revenue_growth", none), ("eps_growth", none)
    , ("roe", none), ("operating_margin", none), ("net margin", none)
    , ("debt_to_equity", none), ("current_ratio", none), ("beta", none) ]
    [ ("pe_ratio", none), ("peg_ratio", none), ("price_to_fcf", none)
    , ("revenue_growth", none), ("eps_growth", none)
    , ("roe", none), ("operating_margin", none), ("net_margin", none)
    , ("debt_to_equity", none), ("current_ratio", none), ("beta", none) ]
    hall (Or.inl (by simp [rawGet]))
  refine ⟨hall, ?_⟩
  unfold score_stock
  rw [if_pos rfl, hns]
  intro h
  cases h

/-- Claim C1 as amended: a run whose subject has zero available metrics in
every category does **not** fail — every absent category score is replaced
by the neutral 50 and (when the raw debt/liquidity pair needed by the one
adjustment that could move a 50 score is not fully present) the pipeline
completes with the default final score 50.0. `score_stock` returns a
failure (`None`) only when the ticker's peer data cannot be fetched. -/
theorem C1_missing_data_returns_default (ps raw : List (String × Option ℚ))
    (hall : ∀ p ∈ aggregate_all_categories METRICS (score_all_metrics METRICS ps),
      p.2.score = none)
    (hraw : rawGet raw "debt_to_equity" = none ∨ rawGet raw "current_ratio" = none) :
    score_stock METRICS CATEGORY_WEIGHTS THRESHOLDS true ps raw
      = some ⟨50, 50, 1, false⟩
    ∧ score_stock METRICS CATEGORY_WEIGHTS THRESHOLDS false ps raw = none := by
  constructor
  · unfold score_stock
    rw [if_pos rfl, core_of_all_absent ps raw hall hraw]
  · rfl

/-- Witness for C1's amended theorem: the all-`None` percentile map of the
counterexample completes with final score exactly 50. -/
theorem C1_witness :
    score_stock METRICS CATEGORY_WEIGHTS THRESHOLDS true
      [ ("pe_ratio", (none : Option ℚ)), ("peg_ratio", none), ("price_to_fcf", none)
      , ("revenue_growth", none), ("eps_growth", none)
      , ("roe", none), ("operating_margin", none), ("net margin", none)
      , ("debt_to_equity", none), ("current_ratio", none), ("beta", none) ]
      [("debt_to_equity", none)]
      = some ⟨50, 50, 1, false⟩ := by
  have h := C1_missing_data_returns_default
    [ ("pe_ratio", (none : Option ℚ)), ("peg_ratio", none), ("price_to_fcf", none)
    , ("revenue_growth", none), ("eps_growth", none)
    , ("roe", none), ("operating_margin", none), ("net margin", none)
    , ("debt_to_equity", none), ("current_ratio", none), ("beta", none) ]
    [("debt_to_equity", none)]
    (by
      intro p hp
      have hmsc : score_all_metrics METRICS
          [ ("pe_ratio", (none : Option ℚ)), ("peg_ratio", none), ("price_to_fcf", none)
          , ("revenue_growth", none), ("eps_growth", none)
          , ("roe", none), ("operating_margin", none), ("net margin", none)
          , ("debt_to_equity", none), ("current_ratio", none), ("beta", none) ]
          = [ ("pe_ratio", absentEntry "valuation" "pe_ratio" ⟨40/100, true, some "P/E Ratio"⟩)
            , ("peg_ratio", absentEntry "valuation" "peg_ratio" ⟨35/100, true, some "PEG Ratio"⟩)
            , ("price_to_fcf", absentEntry "valuation" "price_to_fcf" ⟨25/100, true, some "Price/FCF"⟩)
            , ("revenue_growth", absentEntry "growth" "revenue_growth" ⟨50/100, false, some "revenue growth"⟩)
            , ("eps_growth", absentEntry "growth" "eps_growth" ⟨50/100, false, some "EPS growth"⟩)
            , ("roe", absentEntry "profitability" "roe" ⟨40/100, false, some "ROE"⟩)
            , ("operating_margin", absentEntry "profitability" "operating_margin" ⟨30/100, false, none⟩)
            , ("net margin", absentEntry "profitability" "net margin" ⟨30/100, false, some "Net Margin"⟩)
            , ("debt_to_equity", absentEntry "risk" "debt_to_equity" ⟨40/100, true, some "Debt/Equity"⟩)
            , ("current_ratio", absentEntry "risk" "current_ratio" ⟨30/100, false, some "Current Ratio"⟩)
            , ("beta", absentEntry "risk" "beta" ⟨30/100, true, some "beta"⟩) ] := by
        simp [score_all_metrics_eq_aux, scoreAllAux, METRICS,
          scoreCategoryMetrics]
      rw [hmsc] at hp
      simp only [aggregate_all_categories, METRICS, List.map_cons, List.map_nil,
        List.mem_cons, List.not_mem_nil, or_false] at hp
      rcases hp with h | h | h | h <;> rw [h] <;> simp [aggregate_category, METRICS,
        splitAvail, absentEntry])
    (Or.inl (by simp [rawGet]))
  exact h.1

end StockScorer
